import Mathlib

/-!
# Verification of the ftsreader FTS-file toolkit

Shallow embedding of the OPUS/FTS file reader (source file `ftsreader.py`) and
of its batch tools (source file `tools.py`): the binary parameter-record
walker, the header patcher, data-block replacement, file saving, the FFT
session initialisation, and the spectrum-averaging tool.

Modelling conventions, used throughout:

* machine floats are modelled as exact rationals;
* file bytes are natural numbers below 256, a file is a `List ℕ`;
* the IEEE-754 float32/float64 payload encodings used by the reader and the
  writer are modelled by fixed-width little-endian byte encodings (`f32le`,
  `f64le`, `f32dec`, `f64dec`) — no claim inspects the numeric content of
  encoded payload bytes, only their width and position;
* Python exceptions are modelled by `Option`/`Except` results, and caught
  exceptions by the state the handler leaves behind;
* Python `dict`s are modelled as association lists in insertion order
  (CPython dicts preserve insertion order; assigning to an existing key
  overwrites the value in place, `dictInsert` below).
-/

namespace Fts

/-! ## Basic Python-semantics helpers -/

/-- Heterogeneous header value, as stored in the doubly nested header mapping
of the reader (`int` / `float` / `str` records of a parameter block). -/
inductive PyVal where
  | int (z : ℤ)
  | float (q : ℚ)
  | str (s : String)
deriving DecidableEq

/-- Python `dict` assignment `d[k] = v` on an insertion-ordered association
list: overwrite in place when the key exists, append otherwise. -/
def dictInsert {β : Type} (l : List (String × β)) (k : String) (v : β) :
    List (String × β) :=
  if l.any (fun p => p.1 = k) then l.map (fun p => if p.1 = k then (k, v) else p)
  else l ++ [(k, v)]

/-- Python slice `l[:i]`: a negative bound counts from the end. -/
def pyTake {α : Type} (l : List α) (i : ℤ) : List α :=
  if 0 ≤ i then l.take i.toNat else l.take (l.length - i.natAbs)

/-- Python slice `l[i:]`: a negative bound counts from the end. -/
def pyDrop {α : Type} (l : List α) (i : ℤ) : List α :=
  if 0 ≤ i then l.drop i.toNat else l.drop (l.length - i.natAbs)

/-! ## tools.average (claim C1) -/

/-- A parsed spectrum file, modelled by the two attributes `tools.average`
reads off each `ftsreader` object: the wavenumber axis `spcwvn` and the
spectrum `spc`. -/
structure SpcFile where
  spcwvn : List ℚ
  spc : List ℚ
deriving DecidableEq

/-- `tools.average`, restricted to the `av_spc=True` mode the claim is about.
The source seeds the accumulator with the first file of `flist` and then
iterates over the WHOLE list (the first file included a second time), returns
`-1` when some axis differs from the first axis, accumulates the spectra and a
counter `nr` (starting at 1), and finally divides by `nr`.  The `-1` error
return and the Python exceptions (empty list, shape mismatch on broadcast)
are both modelled as `none`. -/
def average (flist : List SpcFile) : Option (List ℚ × List ℚ) :=
  match flist with
  | [] => none
  | f0 :: _ =>
    (flist.foldlM
      (fun (st : List ℚ × List ℚ × ℕ) f =>
        if f.spcwvn ≠ st.1 then none
        else if f.spc.length ≠ st.2.1.length then none
        else some (st.1, List.zipWith (· + ·) st.2.1 f.spc, st.2.2 + 1))
      (f0.spcwvn, f0.spc, (1 : ℕ))).map
      (fun st => (st.1, st.2.1.map (· / (st.2.2 : ℚ))))

/-! ## Header search (claim C5) -/

/-- The nested header mapping `self.header`: block name to parameter map. -/
abbrev Header := List (String × List (String × PyVal))

/-- `ftsreader.search_header_par`: collect, block by block and parameter by
parameter, all block names whose parameter map has the key `par` into `pars`,
then return `pars[0]` when `pars` is non-empty (with only a verbose notice
when there are several hits) and `None` otherwise. -/
def search_header_par (header : Header) (par : String) : Option String :=
  let pars := header.foldl
    (fun acc blk =>
      blk.2.foldl (fun a kv => if par = kv.1 then a ++ [blk.1] else a) acc)
    []
  if pars.length = 1 then pars.head?
  else if pars.length > 1 then pars.head?
  else none

/-- The claim's specification of the header search: the list of ALL block
names whose parameter map contains the key. -/
def blocksContaining (header : Header) (par : String) : List String :=
  (header.filter (fun blk => blk.2.any (fun kv => par = kv.1))).map Prod.fst

/-! ## FFT session initialisation (claim C6) -/

/-- `np.mean` over a rational list (the empty case, `nan` in numpy, is mapped
to `0`; no claim evaluates a mean of an empty list). -/
def listMean (l : List ℚ) : ℚ := l.sum / l.length

/-- `ftsreader._normalize_ifg`: `ifg -= np.mean(ifg[int(len(ifg)/2):])`,
i.e. subtract the mean of the second half of the branch from every sample.
The value computed for the passed-in array view is this map. -/
def _normalize_ifg (ifg : List ℚ) : List ℚ :=
  ifg.map (fun x => x - listMean (ifg.drop (ifg.length / 2)))

/-- The forward branch `self._ifg_fw` built by `init_FT` in the double-sided
(`AQM = 'SD'`) case: `self.ifg[:int(len(self.ifg)/2)]`, DC-removed. -/
def ifg_fw (ifg : List ℚ) : List ℚ :=
  _normalize_ifg (ifg.take (ifg.length / 2))

/-- The backward branch `self._ifg_bw` built by `init_FT` in the double-sided
case: `self.ifg[int(len(self.ifg)/2):][::-1]`, DC-removed. -/
def ifg_bw (ifg : List ℚ) : List ℚ :=
  _normalize_ifg ((ifg.drop (ifg.length / 2)).reverse)

/-- The DC constant `init_FT` subtracts from the forward branch: the mean of
the second half of `self.ifg[:len/2]`. -/
def dc_fw (ifg : List ℚ) : ℚ :=
  listMean ((ifg.take (ifg.length / 2)).drop ((ifg.take (ifg.length / 2)).length / 2))

/-- The DC constant `init_FT` subtracts from the backward branch: the mean of
the second half of the reversed `self.ifg[len/2:]`. -/
def dc_bw (ifg : List ℚ) : ℚ :=
  listMean (((ifg.drop (ifg.length / 2)).reverse).drop
    (((ifg.drop (ifg.length / 2)).reverse).length / 2))

/-- The contents of `self.ifg` after `init_FT` ran its two
`_normalize_ifg` calls in the double-sided case.  `self.ifg[:n/2]` and
`self.ifg[n/2:][::-1]` are numpy views (basic slicing), and the in-place
`-=` of `_normalize_ifg` writes through them, so the underlying array ends
up holding the forward working branch followed by the backward working
branch read back through the reversing view. -/
def init_FT_ifg_after (ifg : List ℚ) : List ℚ :=
  ifg_fw ifg ++ (ifg_bw ifg).reverse

/-! ## ZPD search, parabola mode (claim C8) -/

/-- `np.argmax` over a rational list: index of the first occurrence of the
maximum (numpy returns the first maximal index).  Empty input is never used by
the claims (numpy raises there); it is mapped to `0`. -/
def np_argmax (l : List ℚ) : ℕ :=
  (List.range l.length).foldl
    (fun best i => if l.getD best 0 < l.getD i 0 then i else best) 0

/-- Python sequence indexing: negative indices address from the end; an
out-of-range index defaults to `0` (the claims only index in range). -/
def pyGet (l : List ℚ) (i : ℤ) : ℚ :=
  if 0 ≤ i then l.getD i.toNat 0 else l.getD (l.length - i.natAbs) 0

/-- `ftsreader._calc_parabola`: fit the parabola through three points with the
source's three-point formulas and return the vertex abscissa `-B/(2A)`. -/
def _calc_parabola (x1 y1 x2 y2 x3 y3 : ℚ) : ℚ :=
  let denom := (x1 - x2) * (x1 - x3) * (x2 - x3)
  let A := (x3 * (y2 - y1) + x2 * (y1 - y3) + x1 * (y3 - y2)) / denom
  let B := (x3 * x3 * (y1 - y2) + x2 * x2 * (y3 - y1) + x1 * x1 * (y2 - y3)) / denom
  let parabola := -B / (2 * A)
  parabola

/-- The `parabola fit` arm of `ftsreader._get_zpd`: `k = argmax(|ifg|)`, then
the parabola vertex through the samples at `k-1`, `k`, `k+1` (Python indexing,
so the index `k-1` wraps around at `k = 0`). -/
def _get_zpd_parabola (ifg : List ℚ) : ℚ :=
  let k : ℕ := np_argmax (ifg.map (fun x => |x|))
  _calc_parabola ((k : ℚ) - 1) (pyGet ifg ((k : ℤ) - 1))
    (k : ℚ) (pyGet ifg (k : ℤ))
    ((k : ℚ) + 1) (pyGet ifg ((k : ℤ) + 1))

/-! ## Zero filling and inverse FFT (claim C9) -/

/-- `next_higher_power_of_two` from `init_FT`:
`int(2 ** np.ceil(np.log2(x)))`, i.e. `2 ^ ⌈log₂ x⌉` for `x ≥ 1`. -/
def next_higher_power_of_two (x : ℕ) : ℕ := 2 ^ Nat.clog 2 x

/-- `self._ifg_array_length` computed by `init_FT`:
`next_higher_power_of_two(len(self._ifg_fw)) * zero_filling`. -/
def _ifg_array_length (L zero_filling : ℕ) : ℕ :=
  next_higher_power_of_two L * zero_filling

/-- The numpy slice assignment `arr[:e] = src` (the assigned window is a
prefix of `arr`, also for a negative `e`): raises ValueError (`none`) when
the window and `src` differ in length.  (numpy's size-1 broadcast special
case is not modelled; reaching it here would need `c > len ifg`, which no
ZPD can produce.) -/
def npSliceAssignTo (arr : List ℚ) (e : ℤ) (src : List ℚ) : Option (List ℚ) :=
  let tgt := pyTake arr e
  if tgt.length = src.length then some (src ++ arr.drop tgt.length) else none

/-- The numpy slice assignment `arr[s:] = src` (the assigned window is a
suffix of `arr`): raises ValueError (`none`) when the window and `src`
differ in length. -/
def npSliceAssignFrom (arr : List ℚ) (s : ℤ) (src : List ℚ) : Option (List ℚ) :=
  let tgt := pyDrop arr s
  if tgt.length = src.length then some (arr.take (arr.length - tgt.length) ++ src)
  else none

/-- `ftsreader._pack_ifg` with `c = int(np.ceil(zpd))`: start from
`np.zeros(M)` with `M = self._ifg_array_length`, then perform the two numpy
slice assignments `ifg_packed[:len(ifg)-c] = ifg[c:]` and
`ifg_packed[-c:] = ifg[:c]`.  Either assignment raises ValueError (`none`)
on a length mismatch — in particular at `c = 0`, where `ifg_packed[-0:]`
spans the WHOLE length-`M` array while the assigned `ifg[:0]` is empty. -/
def _pack_ifg (M : ℕ) (ifg : List ℚ) (c : ℕ) : Option (List ℚ) :=
  let ifg_packed := List.replicate M (0 : ℚ)
  match npSliceAssignTo ifg_packed ((ifg.length : ℤ) - (c : ℤ)) (ifg.drop c) with
  | none => none
  | some p1 => npSliceAssignFrom p1 (-(c : ℤ)) (ifg.take c)

/-- `ftsreader._ftir_fft`: pack the interferogram (propagating a packing
ValueError), apply the inverse FFT and keep the first `len(ifg_packed)/2`
bins.  `np.fft.ifft` is numpy library code, external to this repository; it
is abstracted as a parameter `F` (its relevant contract, used as a
hypothesis where needed, is that it maps an array to one of the same
length). -/
def _ftir_fft (F : List ℚ → List ℚ) (M : ℕ) (ifg : List ℚ) (c : ℕ) :
    Option (List ℚ) :=
  match _pack_ifg M ifg c with
  | none => none
  | some ifg_packed => some ((F ifg_packed).take (ifg_packed.length / 2))

/-! ## File saving (claims C2 and C7) -/

/-- The file system seen by `save_changed_file`: path to file contents. -/
def FileSys : Type := String → Option (List ℕ)

/-- Writing a file: `open(path, 'wb')` followed by a successful `write`. -/
def fsWrite (fs : FileSys) (p : String) (b : List ℕ) : FileSys :=
  fun q => if q = p then some b else fs q

/-- `ftsreader.save_changed_file`, returning the file system afterwards,
whether an exception was raised, and the log lines appended.  When the target
exists the function only prints and logs; otherwise `open(..., 'wb')` creates
(truncates) the target and `f.write(self.newfilebuffer)` either writes the
buffer or, when the buffer is still `None`, raises `TypeError` — leaving the
freshly created file empty. -/
def save_changed_file (fs : FileSys) (newfilebuffer : Option (List ℕ))
    (outputfilename : String) : FileSys × Bool × List String :=
  if (fs outputfilename).isSome then
    (fs, false,
      ["Writing " ++ outputfilename,
       "File already exists: " ++ outputfilename ++ " not doing anything ..."])
  else
    match newfilebuffer with
    | none => (fsWrite fs outputfilename [], true, ["Writing " ++ outputfilename])
    | some b => (fsWrite fs outputfilename b, false, ["Writing " ++ outputfilename])

/-! ## Byte-level codecs -/

/-- All bytes of a file are below 256. -/
def ValidBytes (b : List ℕ) : Prop := ∀ x ∈ b, x < 256

/-- Little-endian `u16` read at offset `o` of a byte list (struct code `H`). -/
def readU16 (s : List ℕ) (o : ℕ) : ℕ := s.getD o 0 + 256 * s.getD (o + 1) 0

/-- Little-endian `u16` encoding (struct code `H`). -/
def encodeU16 (n : ℕ) : List ℕ := [n % 256, n / 256 % 256]

/-- Little-endian signed `i32` decoding of the first four bytes
(struct code `i`). -/
def decodeI32 (data : List ℕ) : ℤ :=
  let u := data.getD 0 0 + 256 * data.getD 1 0 + 65536 * data.getD 2 0
    + 16777216 * data.getD 3 0
  if u < 2 ^ 31 then (u : ℤ) else (u : ℤ) - 2 ^ 32

/-- `struct.pack('i', z)`: range-checked little-endian signed `i32`
encoding; out-of-range values raise (`none`). -/
def encodeI32 (z : ℤ) : Option (List ℕ) :=
  if -(2 ^ 31) ≤ z ∧ z < 2 ^ 31 then
    some [(z % 2 ^ 32).toNat % 256, (z % 2 ^ 32).toNat / 256 % 256,
      (z % 2 ^ 32).toNat / 65536 % 256, (z % 2 ^ 32).toNat / 16777216 % 256]
  else none

/-- The little-endian value of a byte list. -/
def leVal (data : List ℕ) : ℕ := data.foldr (fun b acc => b + 256 * acc) 0

/-- Modelled `struct.pack('d', q)`: IEEE-754 float64 encoding stands in as
8 little-endian bytes of `⌊q⌋ mod 2^64` — no claim inspects payload bytes
numerically, only their width and position. -/
def f64le (q : ℚ) : List ℕ :=
  let u := (⌊q⌋ % 2 ^ 64).toNat
  [u % 256, u / 256 % 256, u / 256 ^ 2 % 256, u / 256 ^ 3 % 256,
   u / 256 ^ 4 % 256, u / 256 ^ 5 % 256, u / 256 ^ 6 % 256, u / 256 ^ 7 % 256]

/-- Modelled `struct.unpack('d', data)`: the little-endian value of the first
8 bytes, as a rational (same modelling convention as `f64le`). -/
def f64dec (data : List ℕ) : ℚ := (leVal (data.take 8) : ℚ)

/-- Modelled `struct.pack('f', q)`: IEEE-754 float32 encoding stands in as
4 little-endian bytes of `⌊q⌋ mod 2^32` (modelling convention as for
`f64le`; `pack('f')` overflow on huge values is not modelled — no claim
involves such values). -/
def f32le (q : ℚ) : List ℕ :=
  let u := (⌊q⌋ % 2 ^ 32).toNat
  [u % 256, u / 256 % 256, u / 65536 % 256, u / 16777216 % 256]

/-- Modelled `struct.unpack('f', data)`: the little-endian value of the first
4 bytes, as a rational. -/
def f32dec (data : List ℕ) : ℚ := (leVal (data.take 4) : ℚ)

/-- ISO-8859-1 (and, on the ASCII keys of this format, UTF-8) decoding:
each byte is its code point. -/
def bytesToString (b : List ℕ) : String := String.mk (b.map Char.ofNat)

/-- The prefix of a byte list up to (excluding) the first NUL byte — the
loop of `getparamsfromblock` that truncates decoded strings at `\x00`. -/
def takeUntilZero : List ℕ → List ℕ
  | [] => []
  | x :: t => if x = 0 then [] else x :: takeUntilZero t

/-! ## Block directory (`read_structure`, `test_if_ftsfile`) -/

/-- One entry of `self.fs`: the two type codes and the signed 32-bit
`length` and `offset` read from the directory. -/
structure BlockInfo where
  blocktype : ℕ
  blocktype2 : ℕ
  length : ℤ
  offset : ℤ
deriving DecidableEq

/-- Little-endian signed `i32` read at byte offset `o`; `none` when fewer
than four bytes remain (`struct.unpack` length error). -/
def readI32 (b : List ℕ) (o : ℕ) : Option ℤ :=
  if o + 4 ≤ b.length then some (decodeI32 ((b.drop o).take 4)) else none

/-- The primary block-name table `self.__blocknames`, keyed by `type1`. -/
def blocknameT1 (t1 : ℕ) : Option String :=
  match t1 with
  | 160 => some "Sample Parameters"
  | 23 => some "Data Parameters"
  | 96 => some "Optic Parameters"
  | 64 => some "FT Parameters"
  | 48 => some "Acquisition Parameters"
  | 31 => some "Data Parameters"
  | 32 => some "Instrument Parameters"
  | 15 => some "Data Block"
  | 7 => some "Data Block"
  | 0 => some "something"
  | _ => none

/-- The secondary block-name table `self.__blocknames2`, keyed by
`str(type2)`.  The two bytes-keyed entries of the source dictionary
(`b'\x84'`, `b'\x88'`) are unreachable, because the lookup key is always the
decimal string `str(blocktype2)`. -/
def blocknameT2 (t2 : ℕ) : String :=
  match t2 with
  | 132 => " ScSm"
  | 4 => " SpSm"
  | 8 => " IgSm"
  | 136 => " IgSm/2.Chn."
  | 20 => " TrSm"
  | 12 => " PhSm"
  | _ => ""

/-- Python `'%3i' % z`: decimal, left-padded with spaces to width 3. -/
def fmtLen3 (z : ℤ) : String :=
  let s := toString z
  if s.length < 3 then String.mk (List.replicate (3 - s.length) ' ') ++ s else s

/-- The canonical block name built by `read_structure` from a directory
entry: primary tag (or the unknown-block sentinel), secondary tag, and the
`' len %3i'` suffix for blocks with `type1 = 0` or an unknown primary tag. -/
def directoryName (t1 t2 : ℕ) (len : ℤ) : String :=
  let base :=
    (match blocknameT1 t1 with
     | some n => n
     | none => "[unknown block " ++ toString t1 ++ "]") ++ blocknameT2 t2
  if t1 = 0 ∨ (blocknameT1 t1).isNone then base ++ " len " ++ fmtLen3 len else base

/-- The directory loop of `read_structure`: read `n` block entries of
12 bytes (`2BH2i`) starting at `pos`, populating the `self.fs` dictionary
(duplicate names overwrite in place).  A short read raises (`none`). -/
def readDirEntries (bytes : List ℕ) :
    ℕ → ℕ → List (String × BlockInfo) → Option (List (String × BlockInfo))
  | 0, _, acc => some acc
  | n + 1, pos, acc =>
    if pos + 12 ≤ bytes.length then
      match readI32 bytes (pos + 4), readI32 bytes (pos + 8) with
      | some len, some off =>
        readDirEntries bytes n (pos + 12)
          (dictInsert acc
            (directoryName (bytes.getD pos 0) (bytes.getD (pos + 1) 0) len)
            ⟨bytes.getD pos 0, bytes.getD (pos + 1) 0, len, off⟩)
      | _, _ => none
    else none

/-- `ftsreader.read_structure`: unpack the six leading `i32` words (the magic
value is read but not checked here), seek to `offset1` and read
`numberofblocks` directory entries.  A negative `offset1` makes `f.seek`
raise; a negative block count iterates zero times (Python `range`). -/
def read_structure (bytes : List ℕ) : Option (List (String × BlockInfo)) :=
  if 24 ≤ bytes.length then
    match readI32 bytes 12, readI32 bytes 20 with
    | some offset1, some numberofblocks =>
      if offset1 < 0 then none
      else readDirEntries bytes numberofblocks.toNat offset1.toNat []
    | _, _ => none
  else none

/-- The FTS magic bytes `b'\n\n\xfe\xfe'`. -/
def ftsmagicval : List ℕ := [10, 10, 254, 254]

/-- `ftsreader.test_if_ftsfile`: the first four bytes match the magic. -/
def test_if_ftsfile (bytes : List ℕ) : Bool := bytes.take 4 = ftsmagicval

/-! ## Parameter-record walker (`getparamsfromblock`) -/

/-- The bytes of `b'END'`. -/
def endKeyBytes : List ℕ := [69, 78, 68]

/-- Decoding of one record payload per `dtype` (the `try` body of
`getparamsfromblock`): `0` → first signed `i32` (the unpack succeeds exactly
when the payload length is a positive multiple of 4), `1` → first float64
(positive multiple of 8), `2`–`4` → ISO-8859-1 string up to the first NUL
(the unpack needs the exact `2·reclen` bytes), other codes → the literal
`'[read error]'` marker value.  `none` is the caught per-record exception. -/
def decodeVal (thistype : ℕ) (data : List ℕ) (reclen : ℕ) : Option PyVal :=
  if thistype = 0 then
    if data.length % 4 = 0 ∧ 4 ≤ data.length then some (PyVal.int (decodeI32 data))
    else none
  else if thistype = 1 then
    if data.length % 8 = 0 ∧ 8 ≤ data.length then some (PyVal.float (f64dec data))
    else none
  else if 2 ≤ thistype ∧ thistype ≤ 4 then
    if data.length = 2 * reclen then
      some (PyVal.str (bytesToString (takeUntilZero data)))
    else none
  else some (PyVal.str "[read error]")

/-- One decoded parameter record in `full` mode: the raw (unstripped) 4-byte
key, `dtype`, `reclen`, the absolute byte offset of the 8-byte record header,
and the decoded value — the tuple `[para, thistype, length, offset+i, val]`
collected by `getparamsfromblock(..., full=True)`. -/
structure ParamRec where
  key : List ℕ
  dtype : ℕ
  reclen : ℕ
  off : ℕ
  val : PyVal
deriving DecidableEq

/-- The record loop of `getparamsfromblock`: at position `pos` read the
8-byte record header (`4s2H`; a short read raises and discards everything),
stop with no further record when the key starts with `END` or `reclen = 0`,
otherwise read the `2·reclen` payload bytes (short at end of file), decode —
a failed decode is caught and the record skipped — and continue behind the
payload.  The fuel argument only bounds the recursion; the caller passes
`bytes.length + 1`, which is never exhausted because every continuing step
advances by at least 10 bytes inside the file. -/
def walkRecords (bytes : List ℕ) : ℕ → ℕ → Option (List ParamRec)
  | 0, _ => none
  | fuel + 1, pos =>
    let s := (bytes.drop pos).take 8
    if s.length < 8 then none
    else
      let para := s.take 4
      let thistype := readU16 s 4
      let reclen := readU16 s 6
      if para.take 3 ≠ endKeyBytes ∧ 0 < reclen then
        match walkRecords bytes fuel (pos + 8 + 2 * reclen) with
        | none => none
        | some rest =>
          match decodeVal thistype ((bytes.drop (pos + 8)).take (2 * reclen)) reclen with
          | some v => some (⟨para, thistype, reclen, pos, v⟩ :: rest)
          | none => some rest
      else some []

/-- The key NUL-stripping of `getparamsfromblock`: drop the fourth byte when
it is NUL. -/
def stripKey (key : List ℕ) : List ℕ :=
  if key.getD 3 0 = 0 then key.take 3 else key

/-- `ftsreader.getparamsfromblock` (default mode): the parameter dictionary
of the block at `offset` (the `length` argument is shadowed inside the source
loop and never used).  `none` models a propagated exception. -/
def getparamsfromblock (bytes : List ℕ) (offset _length : ℤ) :
    Option (List (String × PyVal)) :=
  if offset < 0 then none
  else
    (walkRecords bytes (bytes.length + 1) offset.toNat).map
      (fun ll =>
        ll.foldl (fun d r => dictInsert d (bytesToString (stripKey r.key)) r.val) [])

/-- `ftsreader.getparamsfromblock` with `full=True`: the record metadata
list used by the writer. -/
def getparamsfromblock_full (bytes : List ℕ) (offset _length : ℤ) :
    Option (List ParamRec) :=
  if offset < 0 then none
  else walkRecords bytes (bytes.length + 1) offset.toNat

/-! ## File model construction (`read_header`, `__init__`) -/

/-- Python `sub in s` on strings (for non-empty `sub`): splitting on `sub`
yields more than one piece exactly when `sub` occurs in `s`. -/
def containsSub (s sub : String) : Bool := 2 ≤ (s.splitOn sub).length

/-- `ftsreader.read_header`: walk `self.fs` in order; for every non-data,
non-empty block that is neither unknown nor the `something` block, decode its
parameters (a failing block is logged and skipped) into `self.header`. -/
def read_header (bytes : List ℕ) (fs : List (String × BlockInfo)) : Header :=
  fs.foldl
    (fun hdr blk =>
      if blk.1.take 10 ≠ "Data Block" ∧ (0 : ℤ) < blk.2.length then
        if containsSub blk.1 "unknown" ∨ containsSub blk.1 "something" then hdr
        else
          match getparamsfromblock bytes blk.2.offset blk.2.length with
          | some params => dictInsert hdr blk.1 params
          | none => hdr
      else hdr)
    []

/-- The parts of an `ftsreader` object the format-engine claims touch: the
bytes of the file at `self.path`, the patch buffer `self.newfilebuffer`,
`self.header`, `self.fs` and `self.log`. -/
structure WModel where
  bytes : List ℕ
  newfilebuffer : Option (List ℕ)
  header : Header
  fs : List (String × BlockInfo)
  log : List String

/-- `ftsreader.__init__` (data-block materialisation aside): the buffer
starts as `None`; when the magic test passes the structure and header are
parsed (a parse exception is caught by the surrounding `try`, leaving the
attributes empty). -/
def ftsreader_init (bytes : List ℕ) : WModel :=
  if test_if_ftsfile bytes then
    match read_structure bytes with
    | some fs => ⟨bytes, none, read_header bytes fs, fs, []⟩
    | none => ⟨bytes, none, [], [], []⟩
  else ⟨bytes, none, [], [], []⟩

/-! ## Writer / patcher -/

/-- The match test of `get_single_param_from_block`:
`l[0][:len(par)].decode('utf8') == par`, which on the ASCII keys of this
format is byte-wise prefix equality. -/
def prefixMatchesPar (key : List ℕ) (par : String) : Bool :=
  key.take par.length = par.toList.map Char.toNat

/-- `ftsreader.get_single_param_from_block`: locate the block containing
`par` via `search_header_par` and `search_block` (= `self.fs` lookup), walk
it in `full` mode and return the first record whose key matches.  Every
failure (no block, walk exception, no match) is `none` — in the source these
raise and are caught by the caller `change_header_pars`. -/
def get_single_param_from_block (m : WModel) (par : String) : Option ParamRec :=
  match search_header_par m.header par with
  | none => none
  | some blockname =>
    match m.fs.lookup blockname with
    | none => none
    | some block =>
      match getparamsfromblock_full m.bytes block.offset block.length with
      | none => none
      | some ll => ll.find? (fun l => prefixMatchesPar l.key par)

/-- `struct.pack('%1is' % n, s.encode())`: truncate to `n` bytes or NUL-pad
up to `n` bytes (ASCII-faithful byte model of `str.encode`). -/
def pyPackString (n : ℕ) (s : String) : List ℕ :=
  let b := s.toList.map Char.toNat
  b.take n ++ List.replicate (n - b.length) 0

/-- The payload re-encoding of `change_header_pars` by the record's original
`dtype`: `0` → 4-byte `i32` (`struct.pack('i', ...)` needs an in-range int),
`1` → 8-byte float64 (`pack('d', ...)` also accepts an int), `2`–`4` →
`2·reclen` NUL-padded bytes of the encoded string.  For any other `dtype`, or
a value of the wrong kind, `pack` (or the unbound `dat`) raises — `none`. -/
def packHeaderVal (mtype reclen : ℕ) (v : PyVal) : Option (List ℕ) :=
  if mtype = 0 then
    match v with
    | PyVal.int z => encodeI32 z
    | _ => none
  else if mtype = 1 then
    match v with
    | PyVal.float q => some (f64le q)
    | PyVal.int z => some (f64le (z : ℚ))
    | _ => none
  else if 2 ≤ mtype ∧ mtype ≤ 4 then
    match v with
    | PyVal.str s => some (pyPackString (2 * reclen) s)
    | _ => none
  else none

/-- The buffer splice
`buf[:offset] + dat + buf[offset+len(dat):]` of the patcher. -/
def splice (b : List ℕ) (off : ℕ) (dat : List ℕ) : List ℕ :=
  b.take off ++ dat ++ b.drop (off + dat.length)

/-- One iteration of the `for` loop of `change_header_pars`: locate the
record, re-encode the payload, prepend the re-packed 8-byte header
(`struct.pack('4s2H', pn, mtype, leng)`) and splice in place.  Any exception
is caught and only logged. -/
def change_header_par_step (m : WModel) (par : String) (newval : PyVal) : WModel :=
  match get_single_param_from_block m par with
  | none =>
    { m with log := m.log ++
        ["Error while replacing header parameter " ++ par ++ " in newfilebuffer"] }
  | some l =>
    match packHeaderVal l.dtype l.reclen newval with
    | none =>
      { m with log := m.log ++
          ["Error while replacing header parameter " ++ par ++ " in newfilebuffer"] }
    | some payload =>
      let dat := l.key ++ encodeU16 l.dtype ++ encodeU16 l.reclen ++ payload
      { m with
        newfilebuffer := some (splice (m.newfilebuffer.getD []) l.off dat),
        log := m.log ++ ["Replaced header parameter " ++ par ++ " in newfilebuffer."] }

/-- `ftsreader.change_header_pars`: lazily seed `self.newfilebuffer` with the
original bytes, then run the loop over the `(par, newval)` pairs (Python's
`newvals[i]` IndexError on a short value list is caught per iteration, so
extra parameters are skipped — the `zip`). -/
def change_header_pars (m : WModel) (pars : List String) (newvals : List PyVal) :
    WModel :=
  let m0 := if m.newfilebuffer.isNone then { m with newfilebuffer := some m.bytes } else m
  (pars.zip newvals).foldl (fun acc pv => change_header_par_step acc pv.1 pv.2) m0

/-- `ftsreader.replace_datablock`: look the block up in `self.fs` (a missing
name raises KeyError out of the method — `none`), refuse with a warning when
the stored length differs from the new length, otherwise pack the floats,
lazily seed the buffer and splice `4·length` bytes at the block's offset. -/
def replace_datablock (m : WModel) (blockname : String) (newdatablock : List ℚ) :
    Option WModel :=
  let m1 := { m with log := m.log ++
      ["Replacing datablock" ++ blockname ++ " in newfilebuffer"] }
  match m1.fs.lookup blockname with
  | none => none
  | some block =>
    if block.length ≠ (newdatablock.length : ℤ) then
      some { m1 with log := m1.log ++
          ["Old and new datablocks have different size not doing anything ..."] }
    else
      let newdatablock_packed := newdatablock.flatMap f32le
      let m2 := if m1.newfilebuffer.isNone then { m1 with newfilebuffer := some m1.bytes }
        else m1
      let b := m2.newfilebuffer.getD []
      some { m2 with
        newfilebuffer := some (pyTake b block.offset ++ newdatablock_packed
          ++ pyDrop b (block.offset + 4 * (newdatablock.length : ℤ))),
        log := m2.log ++ ["Replaced data block in newfilebuffer"] }

/-! ## Data-block reading (`get_block`, `get_datablocks`) -/

/-- Group a byte list into 4-byte float32 values (the caller guarantees a
length divisible by four). -/
def chunks4f : List ℕ → List ℚ
  | a :: b :: c :: d :: rest => f32dec [a, b, c, d] :: chunks4f rest
  | _ => []

/-- `ftsreader.get_block`: seek to `pointer` and unpack `length` little-endian
float32 values; a negative seek, a negative count or a short read raise
(`none`). -/
def get_block (bytes : List ℕ) (pointer length : ℤ) : Option (List ℚ) :=
  if pointer < 0 ∨ length < 0 then none
  else
    let raw := (bytes.drop pointer.toNat).take (4 * length.toNat)
    if raw.length = 4 * length.toNat then some (chunks4f raw) else none

/-- `np.linspace a b n` (endpoint included; `n = 1` gives `[a]`). -/
def np_linspace (a b : ℚ) (n : ℕ) : List ℚ :=
  (List.range n).map (fun i => a + (b - a) * i / ((n : ℚ) - 1))

/-- The kinds of Python exceptions `get_datablocks` can raise. -/
inductive PyErr where
  | keyError
  | typeError
  | valueError
  | structError
deriving DecidableEq

/-- A header value used as a number by `np.linspace`; a string there raises
TypeError. -/
def asNum : PyVal → Option ℚ
  | PyVal.int z => some (z : ℚ)
  | PyVal.float q => some q
  | PyVal.str _ => none

/-- Nested header lookup `self.header[blockname][key]` as an `Option`. -/
def lookup2 (hdr : Header) (blockname key : String) : Option PyVal :=
  (hdr.lookup blockname).bind (fun dp => dp.lookup key)

/-- `ftsreader.get_datablocks`: take the suffix of the block name, look up
`NPT` in the companion `Data Parameters <suffix>` header block (KeyError when
the block or the key is absent — the first thing the method does), locate and
read the data block, truncate the y-axis to `NPT`, and build the `linspace`
x-axis from `FXV`/`LXV`/`NPT` for non-interferogram suffixes (`None` x-axis
for `IgSm`). -/
def get_datablocks (m : WModel) (block : String) :
    Except PyErr (Option (List ℚ) × List ℚ) :=
  let datablocktype := (block.splitOn " ").getLastD ""
  match m.header.lookup ("Data Parameters " ++ datablocktype) with
  | none => Except.error PyErr.keyError
  | some dp =>
    match dp.lookup "NPT" with
    | none => Except.error PyErr.keyError
    | some nptv =>
      match nptv with
      | PyVal.int npt =>
        match m.fs.lookup block with
        | none => Except.error PyErr.typeError
        | some bi =>
          match get_block m.bytes bi.offset bi.length with
          | none => Except.error PyErr.structError
          | some dat =>
            let yax := pyTake dat npt
            if datablocktype = "IgSm" then Except.ok (none, yax)
            else
              match dp.lookup "FXV", dp.lookup "LXV" with
              | some fxv, some lxv =>
                match asNum fxv, asNum lxv with
                | some a, some b =>
                  if npt < 0 then Except.error PyErr.valueError
                  else Except.ok (some (np_linspace a b npt.toNat), yax)
                | _, _ => Except.error PyErr.typeError
              | _, _ => Except.error PyErr.keyError
      | _ => Except.error PyErr.typeError

/-! ## Concrete inputs for counterexamples and witnesses -/

/-- A minimal valid FTS byte source: the magic, three unused words, directory
offset 24, an unused word, and a block count of zero. -/
def minimalFtsBytes : List ℕ :=
  [10, 10, 254, 254, 0, 0, 0, 0, 0, 0, 0, 0, 24, 0, 0, 0, 0, 0, 0, 0, 0, 0, 0, 0]

/-- A 20-byte parameter block: the record `AQM` (dtype 2, reclen 2, payload
`SD\x00\x00`) followed by an `END` terminator record. -/
def wBytes : List ℕ :=
  [65, 81, 77, 0, 2, 0, 2, 0, 83, 68, 0, 0, 69, 78, 68, 0, 0, 0, 0, 0]

/-- A parsed file model over `wBytes` with one parameter block. -/
def wModel : WModel :=
  { bytes := wBytes
    newfilebuffer := none
    header := [("Acquisition Parameters", [("AQM", PyVal.str "SD")])]
    fs := [("Acquisition Parameters", ⟨48, 0, 2, 0⟩)]
    log := [] }

/-- The facts the walker guarantees about every record it returns: the 8-byte
header was read in full inside the file, the key and the two `u16` fields are
exactly what those bytes decode to, `reclen` is positive and the payload
decode succeeded. -/
def RecWF (bytes : List ℕ) (r : ParamRec) : Prop :=
  ((bytes.drop r.off).take 8).length = 8
  ∧ r.key = ((bytes.drop r.off).take 8).take 4
  ∧ r.dtype = readU16 ((bytes.drop r.off).take 8) 4
  ∧ r.reclen = readU16 ((bytes.drop r.off).take 8) 6
  ∧ 0 < r.reclen
  ∧ decodeVal r.dtype ((bytes.drop (r.off + 8)).take (2 * r.reclen)) r.reclen
      = some r.val

/-! # Theorems -/

/-- C1 (code bug): on two spectra `y=[1,3]` and `y=[3,5]` over the common axis
`[100,200]`, `tools.average` returns `[5/3, 11/3]` and not the pointwise
arithmetic mean `[2,4]`: the first file is loaded once before the loop and
again inside the loop (which runs over the whole list), so the accumulated sum
double-counts the first spectrum and the divisor is `n+1` instead of `n`. -/
theorem average_double_counts_first_file :
    average [⟨[100, 200], [1, 3]⟩, ⟨[100, 200], [3, 5]⟩]
      = some ([100, 200], [5/3, 11/3])
    ∧ ([5/3, 11/3] : List ℚ) ≠ [2, 4] := by
  constructor
  · norm_num [average, List.foldlM]
  · norm_num

/-- C8: on the branch `[0,1,4,9,4,1,0]` the parabola-fit ZPD search takes
`k = argmax(|branch|) = 3` and the three-point vertex abscissa `-B/(2A)`
through the samples at indices 2, 3 and 4 is exactly `3`. -/
theorem zpd_parabola_on_spec_branch :
    np_argmax (([0, 1, 4, 9, 4, 1, 0] : List ℚ).map (fun x => |x|)) = 3
    ∧ _get_zpd_parabola [0, 1, 4, 9, 4, 1, 0] = 3 := by
  constructor
  · norm_num [np_argmax, List.range_succ]
  · have hk : np_argmax (([0, 1, 4, 9, 4, 1, 0] : List ℚ).map (fun x => |x|)) = 3 := by
      norm_num [np_argmax, List.range_succ]
    simp only [_get_zpd_parabola, hk]
    rw [show pyGet [0, 1, 4, 9, 4, 1, 0] (((3 : ℕ) : ℤ) - 1) = 4 from rfl,
      show pyGet [0, 1, 4, 9, 4, 1, 0] (((3 : ℕ) : ℤ)) = 9 from rfl,
      show pyGet [0, 1, 4, 9, 4, 1, 0] (((3 : ℕ) : ℤ) + 1) = 4 from rfl]
    norm_num [_calc_parabola]

/-! ### Claim C5: header search -/

theorem foldl_collect_eq (par x : String) :
    ∀ (l : List (String × PyVal)) (init : List String),
      l.foldl (fun a kv => if par = kv.1 then a ++ [x] else a) init
        = init ++ (l.filter (fun kv => par = kv.1)).map (fun _ => x) := by
  intro l
  induction l with
  | nil => intro init; simp
  | cons kv t ih =>
    intro init
    simp only [List.foldl_cons, List.filter_cons]
    by_cases h : par = kv.1
    · rw [if_pos h, ih (init ++ [x])]
      have hd : decide (par = kv.1) = true := decide_eq_true h
      simp [hd, List.append_assoc]
    · rw [if_neg h, ih init]
      have hd : decide (par = kv.1) = false := decide_eq_false h
      simp [hd]

theorem foldl_header_collect_eq (par : String) :
    ∀ (h : Header) (init : List String),
      h.foldl
        (fun acc blk =>
          blk.2.foldl (fun a kv => if par = kv.1 then a ++ [blk.1] else a) acc)
        init
        = init ++ h.flatMap
            (fun blk => (blk.2.filter (fun kv => par = kv.1)).map (fun _ => blk.1)) := by
  intro h
  induction h with
  | nil => intro init; simp
  | cons blk t ih =>
    intro init
    simp only [List.foldl_cons, List.flatMap_cons]
    rw [foldl_collect_eq par blk.1 blk.2 init, ih, List.append_assoc]

theorem select_head (l : List String) :
    (if l.length = 1 then l.head? else if l.length > 1 then l.head? else none)
      = l.head? := by
  rcases l with _ | ⟨a, t⟩
  · simp
  · simp only [List.length_cons, List.head?_cons]
    split_ifs with h1 h2
    · rfl
    · rfl
    · omega

theorem bind_head_eq_blocksContaining (par : String) :
    ∀ h : Header,
      (h.flatMap
        (fun blk => (blk.2.filter (fun kv => par = kv.1)).map (fun _ => blk.1))).head?
        = (blocksContaining h par).head? := by
  intro h
  induction h with
  | nil => rfl
  | cons blk t ih =>
    simp only [List.flatMap_cons, blocksContaining, List.filter_cons]
    rcases hfe : blk.2.filter (fun kv => par = kv.1) with _ | ⟨c, cs⟩
    · have hany : blk.2.any (fun kv => par = kv.1) = false := by
        rw [Bool.eq_false_iff]
        intro hcontra
        rw [List.any_eq_true] at hcontra
        obtain ⟨kv, hmem, hp⟩ := hcontra
        have hkvf : kv ∈ blk.2.filter (fun kv => par = kv.1) :=
          List.mem_filter.mpr ⟨hmem, hp⟩
        rw [hfe] at hkvf
        exact absurd hkvf (List.not_mem_nil kv)
      simp [hfe, hany, blocksContaining] at ih ⊢
      exact ih
    · have hc : c ∈ blk.2.filter (fun kv => par = kv.1) := by
        rw [hfe]; exact List.mem_cons_self c cs
      have hany : blk.2.any (fun kv => par = kv.1) = true := by
        rw [List.any_eq_true]
        exact ⟨c, (List.mem_filter.mp hc).1, (List.mem_filter.mp hc).2⟩
      simp [hfe, hany, blocksContaining]

/-- C5 (counterexample): with the key `NPT` present in the two blocks `A` and
`B`, `search_header_par` returns just the single name `A` — the first hit —
not the list of all block names containing the key. -/
theorem search_header_par_not_all_blocks :
    search_header_par [("A", [("NPT", PyVal.int 5)]), ("B", [("NPT", PyVal.int 7)])]
        "NPT" = some "A"
    ∧ blocksContaining [("A", [("NPT", PyVal.int 5)]), ("B", [("NPT", PyVal.int 7)])]
        "NPT" = ["A", "B"]
    ∧ (search_header_par [("A", [("NPT", PyVal.int 5)]), ("B", [("NPT", PyVal.int 7)])]
        "NPT").toList
      ≠ blocksContaining [("A", [("NPT", PyVal.int 5)]), ("B", [("NPT", PyVal.int 7)])]
        "NPT" := by
  refine ⟨?_, ?_, ?_⟩ <;> decide

/-- C5 (amended): `search_header_par` returns the FIRST block name, in header
insertion order, whose parameter map contains the key — the head of the list
of all such block names — or `None` when there is no such block. -/
theorem search_header_par_eq_head_of_all (header : Header) (par : String) :
    search_header_par header par = (blocksContaining header par).head? := by
  simp only [search_header_par]
  rw [foldl_header_collect_eq par header [], List.nil_append, select_head]
  exact bind_head_eq_blocksContaining par header

/-! ### Claim C6: init_FT mutates the stored interferogram -/

/-- C6 (counterexample): on the double-sided interferogram `[1,1,1,1]` the two
DC-removal steps of `init_FT` write zeros through the numpy views into
`self.ifg`, so after `init_FT` the stored array is `[0,0,0,0]`, not the
original data: the FFT session's branches are views, not independent
copies. -/
theorem init_FT_changes_stored_ifg :
    init_FT_ifg_after [1, 1, 1, 1] = [0, 0, 0, 0]
    ∧ ([0, 0, 0, 0] : List ℚ) ≠ [1, 1, 1, 1] := by
  constructor
  · norm_num [init_FT_ifg_after, ifg_fw, ifg_bw, _normalize_ifg, listMean]
  · intro hcontra
    have h01 : (0 : ℚ) = 1 := List.head_eq_of_cons_eq hcontra
    norm_num at h01

/-- C6 (amended): `init_FT` mutates `self.ifg` in place — afterwards the array
equals its first half shifted down by the forward DC constant followed by its
second half shifted down by the backward DC constant (its length unchanged);
it coincides with the parsed data only when both constants vanish. -/
theorem init_FT_ifg_after_eq (ifg : List ℚ) :
    init_FT_ifg_after ifg
      = (ifg.take (ifg.length / 2)).map (fun x => x - dc_fw ifg)
        ++ (ifg.drop (ifg.length / 2)).map (fun x => x - dc_bw ifg)
    ∧ (init_FT_ifg_after ifg).length = ifg.length := by
  constructor
  · simp only [init_FT_ifg_after, ifg_fw, ifg_bw, _normalize_ifg, dc_fw, dc_bw,
      ← List.map_reverse, List.reverse_reverse]
  · simp only [init_FT_ifg_after, ifg_fw, ifg_bw, _normalize_ifg,
      List.length_append, List.length_reverse, List.length_map,
      List.length_take, List.length_drop]
    omega

/-! ### Claim C7: overwrite refusal is not a hard error -/

/-- C7 (counterexample): saving onto the existing path `out.fts` leaves the
existing bytes `[9]` untouched and raises nothing — the refusal is only
printed and logged, not surfaced as a hard error. -/
theorem save_overwrite_refused_without_error :
    (save_changed_file (fun p => if p = "out.fts" then some [9] else none)
        (some [1, 2]) "out.fts").2.1 = false
    ∧ (save_changed_file (fun p => if p = "out.fts" then some [9] else none)
        (some [1, 2]) "out.fts").1 "out.fts" = some [9] := by
  constructor
  · rfl
  · rfl

/-- C7 (amended): for every file system, buffer and output path whose target
already exists, `save_changed_file` refuses the write — the file system is
returned unchanged, so the existing file's bytes are untouched and no file is
written — and the refusal is surfaced through the console message and the log
line, with no exception raised (the call returns normally). -/
theorem save_refuses_existing_target (fs : FileSys) (buf : Option (List ℕ))
    (out : String) (h : (fs out).isSome = true) :
    save_changed_file fs buf out
      = (fs, false,
         ["Writing " ++ out,
          "File already exists: " ++ out ++ " not doing anything ..."]) := by
  simp [save_changed_file, h]

/-- Witness for the C7 theorem at a concrete file system and path. -/
theorem save_refuses_existing_target_witness :
    save_changed_file (fun p => if p = "a" then some [9] else none) none "a"
      = ((fun p => if p = "a" then some [9] else none), false,
         ["Writing " ++ "a", "File already exists: " ++ "a" ++ " not doing anything ..."]) :=
  save_refuses_existing_target (fun p => if p = "a" then some [9] else none) none "a" rfl

/-! ### Claim C9: FFT output length -/

theorem npSliceAssignTo_some {arr src : List ℚ} {e : ℤ}
    (h : (pyTake arr e).length = src.length) :
    ∃ out, npSliceAssignTo arr e src = some out ∧ out.length = arr.length := by
  refine ⟨src ++ arr.drop (pyTake arr e).length, by simp [npSliceAssignTo, h], ?_⟩
  have hle : (pyTake arr e).length ≤ arr.length := by
    unfold pyTake
    split_ifs <;> simp [List.length_take]
  simp only [List.length_append, List.length_drop]
  omega

theorem npSliceAssignFrom_some {arr src : List ℚ} {s : ℤ}
    (h : (pyDrop arr s).length = src.length) :
    ∃ out, npSliceAssignFrom arr s src = some out ∧ out.length = arr.length := by
  refine ⟨arr.take (arr.length - (pyDrop arr s).length) ++ src,
    by simp [npSliceAssignFrom, h], ?_⟩
  have hle : (pyDrop arr s).length ≤ arr.length := by
    unfold pyDrop
    split_ifs <;> simp [List.length_drop]
  simp only [List.length_append, List.length_take]
  omega

/-- C9 (counterexample): the claim fails at a reachable FFT session with the
ZPD at sample 0.  On the branch `[5, 1]` the `absolute maximum` ZPD search
returns `argmax(|branch|) = 0`, so the packing rotation is
`c = int(np.ceil(0)) = 0`; then `_pack_ifg`'s tail assignment
`ifg_packed[-0:] = ifg[:0]` assigns an empty array to the whole length-`M`
array and numpy raises ValueError — `_ftir_fft` raises instead of returning
an array of length `M/2`. -/
theorem ftir_fft_raises_at_zero_zpd :
    np_argmax (([5, 1] : List ℚ).map (fun x => |x|)) = 0
    ∧ (Int.ceil (0 : ℚ)).toNat = 0
    ∧ _ftir_fft id (_ifg_array_length 2 1) [5, 1] 0 = none := by
  refine ⟨?_, ?_, ?_⟩
  · norm_num [np_argmax, List.range_succ]
  · norm_num
  · have hM : _ifg_array_length 2 1 = 2 := by
      have hclog : Nat.clog 2 2 = 1 :=
        Nat.clog_eq_one (by norm_num) (by norm_num)
      simp [_ifg_array_length, next_higher_power_of_two, hclog]
    rw [hM]
    decide

/-- C9 (amended): for any length-preserving inverse-FFT primitive `F` (the
contract of `np.fft.ifft`), `zero_filling ≥ 1`, a branch of length `L ≥ 1`
and a packing rotation `c = int(np.ceil(zpd))` with `1 ≤ c ≤ L` — the
rotation must be at least 1, because at `c = 0` the packing raises
ValueError — the `_ftir_fft` step succeeds and returns exactly `M/2` bins,
where `M = next_higher_power_of_two L * zero_filling` is the zero-filled
array length computed at `init_FT`. -/
theorem ftir_fft_length (F : List ℚ → List ℚ)
    (hF : ∀ l, (F l).length = l.length)
    (ifg : List ℚ) (c zero_filling : ℕ)
    (hzf : 1 ≤ zero_filling) (hL : 1 ≤ ifg.length)
    (hc1 : 1 ≤ c) (hc : c ≤ ifg.length) :
    ∃ spc, _ftir_fft F (_ifg_array_length ifg.length zero_filling) ifg c = some spc
      ∧ spc.length = _ifg_array_length ifg.length zero_filling / 2 := by
  have hLM : ifg.length ≤ _ifg_array_length ifg.length zero_filling := by
    calc ifg.length ≤ 2 ^ Nat.clog 2 ifg.length :=
          Nat.le_pow_clog (by norm_num) ifg.length
    _ ≤ 2 ^ Nat.clog 2 ifg.length * zero_filling :=
          Nat.le_mul_of_pos_right _ hzf
  have cond1 : (pyTake (List.replicate (_ifg_array_length ifg.length zero_filling) (0 : ℚ))
      ((ifg.length : ℤ) - (c : ℤ))).length = (ifg.drop c).length := by
    unfold pyTake
    rw [if_pos (by omega : (0 : ℤ) ≤ (ifg.length : ℤ) - (c : ℤ))]
    simp only [List.length_take, List.length_replicate, List.length_drop]
    omega
  obtain ⟨p1, hp1, hp1len⟩ := npSliceAssignTo_some cond1
  rw [List.length_replicate] at hp1len
  have cond2 : (pyDrop p1 (-(c : ℤ))).length = (ifg.take c).length := by
    unfold pyDrop
    rw [if_neg (by omega : ¬(0 : ℤ) ≤ -(c : ℤ))]
    simp only [List.length_drop, List.length_take, Int.natAbs_neg, Int.natAbs_ofNat]
    omega
  obtain ⟨p2, hp2, hp2len⟩ := npSliceAssignFrom_some cond2
  rw [hp1len] at hp2len
  refine ⟨(F p2).take (p2.length / 2), ?_, ?_⟩
  · simp only [_ftir_fft, _pack_ifg, hp1, hp2]
  · simp only [List.length_take, hF, hp2len]
    omega

/-- Witness for the C9 theorem: `F = id`, branch `[3, 4]`, rotation `1`,
zero filling `1`. -/
theorem ftir_fft_length_witness :
    ∃ spc, _ftir_fft id (_ifg_array_length 2 1) [3, 4] 1 = some spc
      ∧ spc.length = _ifg_array_length 2 1 / 2 :=
  ftir_fft_length id (fun l => rfl) [3, 4] 1 1 (by norm_num) (by norm_num)
    (by norm_num) (by norm_num)

/-! ### Claim C2: parse → serialize round trip -/

/-- C2 (counterexample): `minimalFtsBytes` is a valid FTS byte source (the
magic test passes and the structure parses), yet parsing it and immediately
saving without any patch does not reproduce the original bytes:
`self.newfilebuffer` is still `None`, so `save_changed_file` creates the
output file, then `f.write(None)` raises TypeError, leaving an empty file. -/
theorem unpatched_save_does_not_roundtrip :
    test_if_ftsfile minimalFtsBytes = true
    ∧ read_structure minimalFtsBytes = some []
    ∧ (ftsreader_init minimalFtsBytes).newfilebuffer = none
    ∧ (save_changed_file (fun _ => none)
        (ftsreader_init minimalFtsBytes).newfilebuffer "out.fts").1 "out.fts"
      = some []
    ∧ (save_changed_file (fun _ => none)
        (ftsreader_init minimalFtsBytes).newfilebuffer "out.fts").2.1 = true
    ∧ ([] : List ℕ) ≠ minimalFtsBytes := by
  refine ⟨rfl, by decide, rfl, rfl, rfl, by decide⟩

/-- C2 (amended): the unpatched round trip fails because `new_buffer` is
`None`; it holds as soon as the buffer is initialized.  After a no-op
`change_header_pars([], [])` call, saving to a fresh path writes a file whose
bytes equal the original bytes exactly, with no error raised. -/
theorem noop_patch_then_save_roundtrips (m : WModel) (disk : FileSys)
    (out : String) (h1 : m.newfilebuffer = none) (h2 : disk out = none) :
    (save_changed_file disk (change_header_pars m [] []).newfilebuffer out).1 out
      = some m.bytes
    ∧ (save_changed_file disk (change_header_pars m [] []).newfilebuffer out).2.1
      = false := by
  have hb : (change_header_pars m [] []).newfilebuffer = some m.bytes := by
    simp [change_header_pars, h1]
  rw [hb]
  constructor
  · simp [save_changed_file, h2, fsWrite]
  · simp [save_changed_file, h2]

/-- Witness for the C2 theorem at the minimal valid FTS file. -/
theorem noop_patch_then_save_roundtrips_witness :
    (save_changed_file (fun _ => none)
        (change_header_pars (ftsreader_init minimalFtsBytes) [] []).newfilebuffer
        "out.fts").1 "out.fts"
      = some (ftsreader_init minimalFtsBytes).bytes
    ∧ (save_changed_file (fun _ => none)
        (change_header_pars (ftsreader_init minimalFtsBytes) [] []).newfilebuffer
        "out.fts").2.1 = false :=
  noop_patch_then_save_roundtrips (ftsreader_init minimalFtsBytes)
    (fun _ => none) "out.fts" rfl rfl

/-! ### Claim C4: replace_datablock -/

theorem flatMap_f32le_length (l : List ℚ) : (l.flatMap f32le).length = 4 * l.length := by
  induction l with
  | nil => rfl
  | cons x t ih =>
    simp only [List.flatMap_cons, List.length_append, ih, f32le, List.length_cons,
      List.length_nil]
    ring

/-- C4: on a parsed model (block descriptor within the file, per the data
model invariant `offset + 4·length ≤ file_size`), `replace_datablock` refuses
with a surfaced warning and leaves `new_buffer` unchanged when the new
array's length differs from the stored block length, and when the lengths
are equal it splices exactly `4·length` packed bytes at the block's offset,
leaving the total byte length equal to the original file length. -/
theorem replace_datablock_spec (m : WModel) (blockname : String)
    (nd : List ℚ) (bi : BlockInfo)
    (hfs : m.fs.lookup blockname = some bi)
    (hbuf : m.newfilebuffer = none)
    (hoff : 0 ≤ bi.offset)
    (hfit : bi.offset.toNat + 4 * bi.length.toNat ≤ m.bytes.length) :
    (bi.length ≠ (nd.length : ℤ) →
      ∃ m', replace_datablock m blockname nd = some m'
        ∧ m'.newfilebuffer = m.newfilebuffer
        ∧ "Old and new datablocks have different size not doing anything ..." ∈ m'.log)
    ∧ (bi.length = (nd.length : ℤ) →
      ∃ m' b', replace_datablock m blockname nd = some m'
        ∧ m'.newfilebuffer = some b'
        ∧ b'.length = m.bytes.length
        ∧ b' = m.bytes.take bi.offset.toNat ++ nd.flatMap f32le
            ++ m.bytes.drop (bi.offset.toNat + 4 * nd.length)) := by
  constructor
  · intro hne
    have hrw : replace_datablock m blockname nd
        = some { m with log := (m.log
            ++ ["Replacing datablock" ++ blockname ++ " in newfilebuffer"])
            ++ ["Old and new datablocks have different size not doing anything ..."] } := by
      simp only [replace_datablock]
      rw [show ({ m with log := m.log
          ++ ["Replacing datablock" ++ blockname ++ " in newfilebuffer"] } : WModel).fs
          = m.fs from rfl, hfs]
      simp [hne]
    exact ⟨_, hrw, rfl, by simp⟩
  · intro heq
    have hnn : (0 : ℤ) ≤ bi.length := by rw [heq]; exact Int.natCast_nonneg _
    have hdrop : (bi.offset + 4 * (nd.length : ℤ)).toNat
        = bi.offset.toNat + 4 * nd.length := by omega
    have hrw : replace_datablock m blockname nd
        = some { m with
            newfilebuffer := some (m.bytes.take bi.offset.toNat ++ nd.flatMap f32le
              ++ m.bytes.drop (bi.offset.toNat + 4 * nd.length)),
            log := (m.log
              ++ ["Replacing datablock" ++ blockname ++ " in newfilebuffer"])
              ++ ["Replaced data block in newfilebuffer"] } := by
      simp only [replace_datablock]
      rw [show ({ m with log := m.log
          ++ ["Replacing datablock" ++ blockname ++ " in newfilebuffer"] } : WModel).fs
          = m.fs from rfl, hfs]
      dsimp only
      rw [if_neg (show ¬bi.length ≠ (nd.length : ℤ) from not_not_intro heq)]
      simp only [hbuf, Option.isNone_none, if_true, Option.getD_some]
      simp only [pyTake, pyDrop, if_pos hoff,
        if_pos (show (0 : ℤ) ≤ bi.offset + 4 * (nd.length : ℤ) by positivity), hdrop]
    refine ⟨_, _, hrw, rfl, ?_, rfl⟩
    have hlen_eq : bi.length.toNat = nd.length := by omega
    simp only [List.length_append, List.length_take, List.length_drop,
      flatMap_f32le_length]
    omega

/-- A parsed file model with one four-byte data block at offset 4, for the
C4 witness. -/
def c4Model : WModel :=
  { bytes := [0, 0, 0, 0, 0, 0, 0, 0]
    newfilebuffer := none
    header := []
    fs := [("Data Block SpSm", ⟨7, 4, 1, 4⟩)]
    log := [] }

/-- Witness for the C4 theorem: replacing the one-float block of `c4Model`
by `[1]` splices four bytes at offset 4 and preserves the total length. -/
theorem replace_datablock_spec_witness :
    ∃ m' b', replace_datablock c4Model "Data Block SpSm" [1] = some m'
      ∧ m'.newfilebuffer = some b'
      ∧ b'.length = c4Model.bytes.length
      ∧ b' = c4Model.bytes.take (4 : ℤ).toNat ++ ([1] : List ℚ).flatMap f32le
          ++ c4Model.bytes.drop ((4 : ℤ).toNat + 4 * ([1] : List ℚ).length) :=
  (replace_datablock_spec c4Model "Data Block SpSm" [1] ⟨7, 4, 1, 4⟩
    (by decide) rfl (by decide) (by decide)).2 (by decide)

/-! ### Claim C10: get_datablocks requires the companion Data Parameters block -/

/-- C10: `get_datablocks` raises a lookup error (KeyError) whenever the
companion `Data Parameters <suffix>` header block or its `NPT` key is absent
— it never returns the untruncated float array — and any successful
`(xaxis, yaxis)` return requires `NPT` to be present and, for
non-interferogram suffixes, `FXV` and `LXV` as well. -/
theorem get_datablocks_requires_companion (m : WModel) (block : String) :
    (lookup2 m.header ("Data Parameters " ++ (block.splitOn " ").getLastD "") "NPT"
        = none →
      get_datablocks m block = Except.error PyErr.keyError)
    ∧ (∀ xy, get_datablocks m block = Except.ok xy →
        (lookup2 m.header ("Data Parameters " ++ (block.splitOn " ").getLastD "") "NPT").isSome
        ∧ ((block.splitOn " ").getLastD "" ≠ "IgSm" →
            (lookup2 m.header ("Data Parameters " ++ (block.splitOn " ").getLastD "") "FXV").isSome
            ∧ (lookup2 m.header ("Data Parameters " ++ (block.splitOn " ").getLastD "") "LXV").isSome)) := by
  constructor
  · intro h
    simp only [lookup2] at h
    simp only [get_datablocks]
    cases hdp : m.header.lookup ("Data Parameters " ++ (block.splitOn " ").getLastD "") with
    | none => rfl
    | some dp =>
      simp only [hdp, Option.some_bind] at h
      simp only [h]
  · intro xy hok
    simp only [get_datablocks] at hok
    cases hdp : m.header.lookup ("Data Parameters " ++ (block.splitOn " ").getLastD "") with
    | none =>
      simp only [hdp] at hok
      exact Except.noConfusion hok
    | some dp =>
      simp only [hdp] at hok
      cases hnpt : dp.lookup "NPT" with
      | none =>
        simp only [hnpt] at hok
        exact Except.noConfusion hok
      | some nptv =>
        simp only [hnpt] at hok
        have h1 : (lookup2 m.header
            ("Data Parameters " ++ (block.splitOn " ").getLastD "") "NPT").isSome = true := by
          simp only [lookup2]
          rw [hdp]
          simp [hnpt]
        refine ⟨h1, ?_⟩
        intro hig
        cases nptv with
        | int npt =>
          cases hfs : m.fs.lookup block with
          | none =>
            simp only [hfs] at hok
            exact Except.noConfusion hok
          | some bi =>
            simp only [hfs] at hok
            cases hgb : get_block m.bytes bi.offset bi.length with
            | none =>
              simp only [hgb] at hok
              exact Except.noConfusion hok
            | some dat =>
              simp only [hgb] at hok
              rw [if_neg hig] at hok
              cases hfxv : dp.lookup "FXV" with
              | none =>
                simp only [hfxv] at hok
                exact Except.noConfusion hok
              | some fxv =>
                cases hlxv : dp.lookup "LXV" with
                | none =>
                  simp only [hfxv, hlxv] at hok
                  exact Except.noConfusion hok
                | some lxv =>
                  constructor
                  · simp only [lookup2]
                    rw [hdp]
                    simp [hfxv]
                  · simp only [lookup2]
                    rw [hdp]
                    simp [hlxv]
        | float q => exact Except.noConfusion hok
        | str s => exact Except.noConfusion hok

/-- A model whose `fs` has a data block but whose header lacks the companion
`Data Parameters SpSm` block, for the C10 witness. -/
def c10Model : WModel :=
  { bytes := [0, 0, 0, 0]
    newfilebuffer := none
    header := []
    fs := [("Data Block SpSm", ⟨7, 4, 1, 0⟩)]
    log := [] }

/-- Witness for the C10 theorem: with the companion block absent,
`get_datablocks` raises KeyError. -/
theorem get_datablocks_requires_companion_witness :
    get_datablocks c10Model "Data Block SpSm" = Except.error PyErr.keyError :=
  (get_datablocks_requires_companion c10Model "Data Block SpSm").1 (by decide)

/-! ### Claim C3: patch locality of change_header_pars -/

theorem walkRecords_mem (bytes : List ℕ) :
    ∀ (fuel pos : ℕ) (l : List ParamRec) (r : ParamRec),
      walkRecords bytes fuel pos = some l → r ∈ l → RecWF bytes r := by
  intro fuel
  induction fuel with
  | zero =>
    intro pos l r hw _
    simp [walkRecords] at hw
  | succ fuel ih =>
    intro pos l r hw hr
    simp only [walkRecords] at hw
    by_cases h8 : ((bytes.drop pos).take 8).length < 8
    · rw [if_pos h8] at hw
      exact Option.noConfusion hw
    · rw [if_neg h8] at hw
      by_cases hcond : (((bytes.drop pos).take 8).take 4).take 3 ≠ endKeyBytes
          ∧ 0 < readU16 ((bytes.drop pos).take 8) 6
      · rw [if_pos hcond] at hw
        cases hrec : walkRecords bytes fuel
            (pos + 8 + 2 * readU16 ((bytes.drop pos).take 8) 6) with
        | none =>
          rw [hrec] at hw
          exact Option.noConfusion hw
        | some rest =>
          rw [hrec] at hw
          cases hdec : decodeVal (readU16 ((bytes.drop pos).take 8) 4)
              ((bytes.drop (pos + 8)).take (2 * readU16 ((bytes.drop pos).take 8) 6))
              (readU16 ((bytes.drop pos).take 8) 6) with
          | some v =>
            rw [hdec] at hw
            dsimp only at hw
            injection hw with hw
            subst hw
            rcases List.mem_cons.mp hr with hr0 | hr'
            · subst hr0
              refine ⟨?_, rfl, rfl, rfl, hcond.2, hdec⟩
              show ((bytes.drop pos).take 8).length = 8
              have hle : ((bytes.drop pos).take 8).length ≤ 8 :=
                List.length_take_le 8 (bytes.drop pos)
              omega
            · exact ih _ rest r hrec hr'
          | none =>
            rw [hdec] at hw
            dsimp only at hw
            injection hw with hw
            subst hw
            exact ih _ rest r hrec hr
      · rw [if_neg hcond] at hw
        injection hw with hw
        subst hw
        exact absurd hr (List.not_mem_nil r)

theorem getD_take_of_lt {l : List ℕ} {n k : ℕ} (h : k < n) :
    (l.take n).getD k 0 = l.getD k 0 := by
  rw [List.getD_eq_getElem?_getD, List.getD_eq_getElem?_getD, List.getElem?_take,
    if_pos h]

theorem getD_drop (l : List ℕ) (n k : ℕ) :
    (l.drop n).getD k 0 = l.getD (n + k) 0 := by
  rw [List.getD_eq_getElem?_getD, List.getD_eq_getElem?_getD, List.getElem?_drop]

theorem take8_length_le {bytes : List ℕ} {off : ℕ}
    (h : ((bytes.drop off).take 8).length = 8) : off + 8 ≤ bytes.length := by
  rw [List.length_take, List.length_drop] at h
  omega

theorem splice_length (b : List ℕ) (off : ℕ) (dat : List ℕ)
    (hb : off + dat.length ≤ b.length) :
    (splice b off dat).length = b.length := by
  simp only [splice, List.length_append, List.length_take, List.length_drop]
  omega

theorem splice_getD_outside (b : List ℕ) (off : ℕ) (dat : List ℕ) (j : ℕ)
    (hb : off + dat.length ≤ b.length)
    (hj : j < off ∨ off + dat.length ≤ j) :
    (splice b off dat).getD j 0 = b.getD j 0 := by
  have hto : (b.take off).length = off := by
    rw [List.length_take]; omega
  rcases hj with hj | hj
  · simp only [splice]
    rw [List.getD_eq_getElem?_getD, List.getD_eq_getElem?_getD,
      List.getElem?_append_left
        (by rw [List.length_append]; omega : j < (b.take off ++ dat).length),
      List.getElem?_append_left (by omega : j < (b.take off).length),
      List.getElem?_take, if_pos hj]
  · simp only [splice]
    rw [List.getD_eq_getElem?_getD, List.getD_eq_getElem?_getD,
      List.getElem?_append_right
        (by rw [List.length_append]; omega : (b.take off ++ dat).length ≤ j),
      show j - (b.take off ++ dat).length = j - (off + dat.length) by
        rw [List.length_append, hto],
      List.getElem?_drop,
      show off + dat.length + (j - (off + dat.length)) = j by omega]

theorem splice_getD_inside (b : List ℕ) (off : ℕ) (dat : List ℕ) (k : ℕ)
    (hoffb : off ≤ b.length) (hk : k < dat.length) :
    (splice b off dat).getD (off + k) 0 = dat.getD k 0 := by
  have hto : (b.take off).length = off := by
    rw [List.length_take]; omega
  simp only [splice]
  rw [List.getD_eq_getElem?_getD, List.getD_eq_getElem?_getD,
    List.getElem?_append_left
      (by rw [List.length_append]; omega : off + k < (b.take off ++ dat).length),
    List.getElem?_append_right (by omega : (b.take off).length ≤ off + k),
    show off + k - (b.take off).length = k by rw [hto]; omega]

theorem pyPackString_length (n : ℕ) (s : String) : (pyPackString n s).length = n := by
  simp only [pyPackString, List.length_append, List.length_take, List.length_map,
    List.length_replicate]
  omega

theorem encodeI32_length {z : ℤ} {p : List ℕ} (h : encodeI32 z = some p) :
    p.length = 4 := by
  simp only [encodeI32] at h
  split_ifs at h with hc
  injection h with h
  subst h
  rfl

theorem recWF_header_bytes {bytes : List ℕ} {r : ParamRec} (hv : ValidBytes bytes)
    (h : RecWF bytes r) :
    r.key ++ encodeU16 r.dtype ++ encodeU16 r.reclen = (bytes.drop r.off).take 8 := by
  obtain ⟨hlen, hkey, hdt, hrl, -, -⟩ := h
  have hmem : ∀ x ∈ (bytes.drop r.off).take 8, x < 256 := fun x hx =>
    hv x (List.drop_subset _ _ (List.take_subset _ _ hx))
  rw [hkey, hdt, hrl]
  generalize hgen : (bytes.drop r.off).take 8 = s at hlen hmem ⊢
  rcases s with _ | ⟨b0, s⟩
  · simp only [List.length_nil] at hlen
    omega
  rcases s with _ | ⟨b1, s⟩
  · simp only [List.length_cons, List.length_nil] at hlen
    omega
  rcases s with _ | ⟨b2, s⟩
  · simp only [List.length_cons, List.length_nil] at hlen
    omega
  rcases s with _ | ⟨b3, s⟩
  · simp only [List.length_cons, List.length_nil] at hlen
    omega
  rcases s with _ | ⟨b4, s⟩
  · simp only [List.length_cons, List.length_nil] at hlen
    omega
  rcases s with _ | ⟨b5, s⟩
  · simp only [List.length_cons, List.length_nil] at hlen
    omega
  rcases s with _ | ⟨b6, s⟩
  · simp only [List.length_cons, List.length_nil] at hlen
    omega
  rcases s with _ | ⟨b7, s⟩
  · simp only [List.length_cons, List.length_nil] at hlen
    omega
  rcases s with _ | ⟨b8, s⟩
  · have h4 : b4 < 256 := hmem b4 (by simp)
    have h5 : b5 < 256 := hmem b5 (by simp)
    have h6 : b6 < 256 := hmem b6 (by simp)
    have h7 : b7 < 256 := hmem b7 (by simp)
    simp only [readU16, encodeU16, List.getD_cons_succ, List.getD_cons_zero,
      List.take_succ_cons, List.take_zero, List.cons_append, List.nil_append,
      List.cons.injEq, and_true, true_and]
    omega
  · simp only [List.length_cons] at hlen
    omega

theorem decodeVal_zero_len {data : List ℕ} {rl : ℕ} {v : PyVal}
    (h : decodeVal 0 data rl = some v) : data.length % 4 = 0 ∧ 4 ≤ data.length := by
  unfold decodeVal at h
  rw [if_pos rfl] at h
  split_ifs at h with hc
  exact hc

theorem decodeVal_one_len {data : List ℕ} {rl : ℕ} {v : PyVal}
    (h : decodeVal 1 data rl = some v) : data.length % 8 = 0 ∧ 8 ≤ data.length := by
  unfold decodeVal at h
  rw [if_neg (one_ne_zero : (1 : ℕ) ≠ 0), if_pos rfl] at h
  split_ifs at h with hc
  exact hc

theorem decodeVal_str_len {data : List ℕ} {rl t : ℕ} {v : PyVal}
    (ht0 : ¬t = 0) (ht1 : ¬t = 1) (ht24 : 2 ≤ t ∧ t ≤ 4)
    (h : decodeVal t data rl = some v) : data.length = 2 * rl := by
  unfold decodeVal at h
  rw [if_neg ht0, if_neg ht1, if_pos ht24] at h
  split_ifs at h with hc
  exact hc

theorem pack_fits {bytes : List ℕ} {r : ParamRec} {v : PyVal} {payload : List ℕ}
    (hwf : RecWF bytes r)
    (hpack : packHeaderVal r.dtype r.reclen v = some payload) :
    payload.length ≤ 2 * r.reclen ∧ r.off + 8 + payload.length ≤ bytes.length := by
  obtain ⟨hlen, -, -, -, hrl, hdec⟩ := hwf
  have hoff8 : r.off + 8 ≤ bytes.length := take8_length_le hlen
  have hdl : ((bytes.drop (r.off + 8)).take (2 * r.reclen)).length
      = min (2 * r.reclen) (bytes.length - (r.off + 8)) := by
    simp [List.length_take, List.length_drop]
  simp only [packHeaderVal] at hpack
  split_ifs at hpack with h0 h1 h24
  · -- dtype 0: 4-byte integer payload
    cases v with
    | int z =>
      have hp4 : payload.length = 4 := encodeI32_length hpack
      rw [h0] at hdec
      have hc := decodeVal_zero_len hdec
      omega
    | float q => exact Option.noConfusion hpack
    | str s => exact Option.noConfusion hpack
  · -- dtype 1: 8-byte double payload
    have hd8 : ∀ q : ℚ, (f64le q).length = 8 := fun q => rfl
    rw [h1] at hdec
    have hc := decodeVal_one_len hdec
    cases v with
    | int z =>
      injection hpack with hp
      subst hp
      rw [hd8]
      omega
    | float q =>
      injection hpack with hp
      subst hp
      rw [hd8]
      omega
    | str s => exact Option.noConfusion hpack
  · -- dtype 2..4: exact 2·reclen string payload
    have hc := decodeVal_str_len h0 h1 h24 hdec
    cases v with
    | int z => exact Option.noConfusion hpack
    | float q => exact Option.noConfusion hpack
    | str s =>
      injection hpack with hp
      subst hp
      rw [pyPackString_length]
      omega

/-- C3: patch locality.  For a parsed model (all bytes below 256, no patch
applied yet) and any parameter `X` whose record the writer locates
(`get_single_param_from_block` returns it), `change_header_pars([X], [v])`
produces a `new_buffer` of unchanged total length that agrees with the
original bytes everywhere outside the payload region of `X`'s record — in
particular on the record's 8-byte header, which is rewritten with its
original values — and the `self.fs` block table (each block's length and
offset) is untouched. -/
theorem change_header_par_locality (m : WModel) (par : String) (v : PyVal)
    (r : ParamRec)
    (hvb : ValidBytes m.bytes)
    (hbuf : m.newfilebuffer = none)
    (hfind : get_single_param_from_block m par = some r) :
    ∃ b', (change_header_pars m [par] [v]).newfilebuffer = some b'
      ∧ b'.length = m.bytes.length
      ∧ (∀ j, j < r.off + 8 ∨ r.off + 8 + 2 * r.reclen ≤ j →
          b'.getD j 0 = m.bytes.getD j 0)
      ∧ (change_header_pars m [par] [v]).fs = m.fs := by
  have hwf : RecWF m.bytes r := by
    simp only [get_single_param_from_block] at hfind
    cases hsh : search_header_par m.header par with
    | none =>
      simp only [hsh] at hfind
      exact Option.noConfusion hfind
    | some bn =>
      simp only [hsh] at hfind
      cases hlk : m.fs.lookup bn with
      | none =>
        simp only [hlk] at hfind
        exact Option.noConfusion hfind
      | some blk =>
        simp only [hlk] at hfind
        cases hfull : getparamsfromblock_full m.bytes blk.offset blk.length with
        | none =>
          simp only [hfull] at hfind
          exact Option.noConfusion hfind
        | some ll =>
          simp only [hfull] at hfind
          have hmem : r ∈ ll := List.mem_of_find?_eq_some hfind
          simp only [getparamsfromblock_full] at hfull
          split_ifs at hfull with hneg
          exact walkRecords_mem m.bytes _ _ ll r hfull hmem
  have hred : change_header_pars m [par] [v]
      = change_header_par_step { m with newfilebuffer := some m.bytes } par v := by
    simp [change_header_pars, hbuf]
  have hfind' : get_single_param_from_block
      { m with newfilebuffer := some m.bytes } par = some r := hfind
  rw [hred]
  have hoff8 : r.off + 8 ≤ m.bytes.length := take8_length_le hwf.1
  cases hpack : packHeaderVal r.dtype r.reclen v with
  | none =>
    simp only [change_header_par_step, hfind', hpack]
    exact ⟨m.bytes, rfl, rfl, fun j _ => rfl, by simp⟩
  | some payload =>
    obtain ⟨hp2, hpfit⟩ := pack_fits hwf hpack
    have hkey4 : r.key.length = 4 := by
      rw [hwf.2.1, List.length_take, hwf.1]
      decide
    set dat := r.key ++ encodeU16 r.dtype ++ encodeU16 r.reclen ++ payload with hdat
    have hdatlen : dat.length = 8 + payload.length := by
      simp only [hdat, List.length_append, hkey4, encodeU16, List.length_cons,
        List.length_nil]
    have hdatle : r.off + dat.length ≤ m.bytes.length := by omega
    have hhb := recWF_header_bytes hvb hwf
    have hpre : dat.take 8 = (m.bytes.drop r.off).take 8 := by
      rw [hdat]
      rw [List.take_left'
        (show (r.key ++ encodeU16 r.dtype ++ encodeU16 r.reclen).length = 8 by
          simp only [List.length_append, hkey4, encodeU16, List.length_cons,
            List.length_nil])]
      exact hhb
    refine ⟨splice m.bytes r.off dat, ?_,
      splice_length m.bytes r.off dat hdatle, ?_, ?_⟩
    · simp only [change_header_par_step, hfind', hpack]
      rw [hdat]
      rfl
    · intro j hj
      rcases hj with hj | hj
      · by_cases hjo : j < r.off
        · exact splice_getD_outside m.bytes r.off dat j hdatle (Or.inl hjo)
        · obtain ⟨k, rfl, hk8⟩ : ∃ k, j = r.off + k ∧ k < 8 :=
            ⟨j - r.off, by omega, by omega⟩
          rw [splice_getD_inside m.bytes r.off dat k (by omega) (by omega),
            show dat.getD k 0 = (dat.take 8).getD k 0 from (getD_take_of_lt hk8).symm,
            hpre, getD_take_of_lt hk8, getD_drop]
      · exact splice_getD_outside m.bytes r.off dat j hdatle (Or.inr (by omega))
    · simp only [change_header_par_step, hfind', hpack]

/-- The record the walker locates for `AQM` in `wModel`. -/
def wRec : ParamRec := ⟨[65, 81, 77, 0], 2, 2, 0, PyVal.str "SD"⟩

/-- Witness for the C3 theorem: patching `AQM` to `DD` in `wModel`. -/
theorem change_header_par_locality_witness :
    ∃ b', (change_header_pars wModel ["AQM"] [PyVal.str "DD"]).newfilebuffer = some b'
      ∧ b'.length = wModel.bytes.length
      ∧ (∀ j, j < wRec.off + 8 ∨ wRec.off + 8 + 2 * wRec.reclen ≤ j →
          b'.getD j 0 = wModel.bytes.getD j 0)
      ∧ (change_header_pars wModel ["AQM"] [PyVal.str "DD"]).fs = wModel.fs :=
  change_header_par_locality wModel "AQM" (PyVal.str "DD") wRec
    (by unfold ValidBytes; decide) rfl (by decide)

end Fts
